import Mathlib

/-!
Verification of the stock-metrics aggregation pipeline of
`src/process_data.py` (function `process_all_stocks_comparison_data` and
its helper `parse_market_cap_string`), together with the variant of the
same function in `src/scripts/process_data.py`.

Shallow embedding conventions:
* A pandas row of the price table is a `PriceRow`; the `Date` index is a
  day number (an integer), so that `(d2 - d1).days = d2 - d1`.  A missing
  (`NaN`) price cell is `none`.
* Python/numpy floating point numbers are idealised as exact rationals
  (`ℚ`) for every value the source computes with `+ - * /`, and as real
  numbers (`ℝ`) for the two quantities built with `**` and `sqrt`
  (annualized return and volatility), which are derived from the rational
  fields by `Real.rpow` / `Real.sqrt`.
* An operation that raises a Python exception (`IndexError` on `.iloc` of
  an empty series, `ZeroDivisionError` on `1 / years` with `years = 0.0`)
  is modelled by the whole function returning `none`.
* `Series.pct_change()` is modelled without forward-filling: a return is
  `none` when either neighbouring price is missing, matching
  `pct_change` with `fill_method=None`; `.dropna()` removes the `none`s.
* `float(...)` applied to a market-cap string is modelled for plain
  decimal literals (optional sign, digits, one optional dot), the only
  shapes the data and the spec exercise.
-/

set_option allowUnsafeReducibility true in
attribute [semireducible] Rat.add Rat.mul Rat.sub Rat.div Rat.inv Rat.ofScientific

set_option maxRecDepth 40000

/-- One row of the `sp500_stocks` table: symbol, date (day number) and the
two price columns used by the pipeline; `none` models a NaN cell. -/
structure PriceRow where
  symbol : String
  date : ℤ
  close : Option ℚ
  adjClose : Option ℚ
  deriving DecidableEq, Repr

/-- One row of the `sp500_companies` table.  The `Marketcap` cell is either
a number, a string such as "1.2T", or missing (`none`, modelling NaN). -/
structure Company where
  symbol : String
  longname : String
  sector : String
  industry : String
  marketcap : Option (ℚ ⊕ String)
  deriving DecidableEq, Repr

/-- Drop the `none` entries of a list, i.e. `Series.dropna()`. -/
def dropNone (l : List (Option ℚ)) : List ℚ := l.filterMap id

/-- First-occurrence deduplication with an accumulator of already seen
keys; `dedupFirst [] l` is pandas `Series.unique()` (order of first
appearance). -/
def dedupFirst {α : Type} [DecidableEq α] (seen : List α) : List α → List α
  | [] => []
  | x :: xs => if x ∈ seen then dedupFirst seen xs else x :: dedupFirst (x :: seen) xs

/-- Insert into an ascending list, keeping it ascending. -/
def insertSorted (x : ℤ) : List ℤ → List ℤ
  | [] => [x]
  | y :: ys => if x ≤ y then x :: y :: ys else y :: insertSorted x ys

/-- Ascending insertion sort; models the sorted key order of a pandas
`groupby` over the date index. -/
def sortInts (l : List ℤ) : List ℤ := l.foldr insertSorted []

/-- Minimum of a list of dates (`Index.min()`); only used on nonempty
lists, `0` is an arbitrary value for `[]`. -/
def listMin : List ℤ → ℤ
  | [] => 0
  | [x] => x
  | x :: y :: ys => min x (listMin (y :: ys))

/-- Maximum of a list of dates (`Index.max()`). -/
def listMax : List ℤ → ℤ
  | [] => 0
  | [x] => x
  | x :: y :: ys => max x (listMax (y :: ys))

/-- `Series.pct_change()` over consecutive values: `r[t] = p[t]/p[t-1] - 1`,
`none` when either value is missing (the leading `NaN` of `pct_change` is
not produced here; the source drops it with `.dropna()` anyway). -/
def pctChange (ps : List (Option ℚ)) : List (Option ℚ) :=
  (ps.zip ps.tail).map (fun p =>
    match p with
    | (some a, some b) => some (b / a - 1)
    | _ => none)

/-- Arithmetic mean of a list of rationals. -/
def sampleMean (xs : List ℚ) : ℚ := xs.sum / xs.length

/-- Sample variance with the `ddof=1` convention of `Series.std()`:
`Σ (x - mean)² / (n - 1)`.  Only its values for `n ≥ 2` feed the pipeline
(guarded in the source); for `n < 2` the source's `std()` is NaN. -/
def sampleVariance (xs : List ℚ) : ℚ :=
  (xs.map (fun x => (x - sampleMean xs) ^ 2)).sum / ((xs.length : ℚ) - 1)

/-- `NaN`-skipping mean of one date group of `'Adj Close'` values,
`none` when every value of the group is missing, as in pandas
`groupby(...).mean()`. -/
def meanOpt (vs : List (Option ℚ)) : Option ℚ :=
  let xs := dropNone vs
  if xs.length = 0 then none else some (xs.sum / xs.length)

/- ------------------------------------------------------------------ -/
/- `parse_market_cap_string` (src/process_data.py lines 91-121)        -/
/- ------------------------------------------------------------------ -/

/-- Numeric value of a digit string (most significant first). -/
def digitsVal (cs : List Char) : ℕ := cs.foldl (fun n c => 10 * n + (c.toNat - 48)) 0

/-- Split a character list at its first `'.'`. -/
def splitFirstDot : List Char → Option (List Char × List Char)
  | [] => none
  | c :: cs =>
    if c = '.' then some ([], cs)
    else (splitFirstDot cs).map (fun p => (c :: p.1, p.2))

/-- Python `float(str)` on an unsigned decimal literal: digits with at
most one dot and at least one digit; anything else raises `ValueError`,
i.e. yields `none`. -/
def floatOfDigits (cs : List Char) : Option ℚ :=
  match splitFirstDot cs with
  | none => if cs ≠ [] ∧ cs.all Char.isDigit then some (digitsVal cs) else none
  | some (a, b) =>
    if (a ++ b) ≠ [] ∧ a.all Char.isDigit ∧ b.all Char.isDigit then
      some ((digitsVal a : ℚ) + (digitsVal b : ℚ) / 10 ^ b.length)
    else none

/-- Python `float(str)`: optional sign then a decimal literal.  (Exponent
notation, `inf`/`nan` and underscores are not modelled; the market-cap
data never takes those shapes.) -/
def floatOfChars (cs : List Char) : Option ℚ :=
  match cs with
  | '-' :: rest => (floatOfDigits rest).map (fun q => -q)
  | '+' :: rest => floatOfDigits rest
  | _ => floatOfDigits cs

/-- `cap_str.strip().upper().replace('$', '').replace(',', '')` as a
character list. -/
def cleanedCap (s : String) : List Char :=
  ((((s.toList.dropWhile Char.isWhitespace).reverse.dropWhile Char.isWhitespace).reverse).map
      Char.toUpper).filter (fun c => !(c == '$' || c == ','))

/-- The `multipliers` dict of the source, in its iteration order. -/
def capMultipliers : List (Char × ℚ) := [('T', 10 ^ 12), ('B', 10 ^ 9), ('M', 10 ^ 6), ('K', 10 ^ 3)]

/-- `parse_market_cap_string` (src/process_data.py lines 91-121) on a
string argument: strip/upper/clean, try a magnitude suffix (on a failed
prefix parse the source `break`s out and falls through to the plain
parse), else parse as a plain number; `none` models Python `None`. -/
def parse_market_cap_string (s : String) : Option ℚ :=
  let cs := cleanedCap s
  match capMultipliers.find? (fun p => cs.getLast? == some p.1) with
  | some pm =>
    match floatOfChars cs.dropLast with
    | some q => some (q * pm.2)
    | none => floatOfChars cs
  | none => floatOfChars cs

/- ------------------------------------------------------------------ -/
/- Per-symbol metrics (src/process_data.py lines 146-230)              -/
/- ------------------------------------------------------------------ -/

/-- `stocks_df[stocks_df['Symbol'] == symbol]` (line 147). -/
def stockRows (rows : List PriceRow) (sym : String) : List PriceRow :=
  rows.filter (fun r => r.symbol == sym)

/-- The `'Adj Close'` column of one symbol's rows. -/
def stockPrices (rows : List PriceRow) (sym : String) : List (Option ℚ) :=
  (stockRows rows sym).map (fun r => r.adjClose)

/-- `stock_data['Adj Close'].pct_change().dropna()` (line 163). -/
def stockRet (rows : List PriceRow) (sym : String) : List ℚ :=
  dropNone (pctChange (stockPrices rows sym))

/-- `stock_data.index.min()` (line 179). -/
def stockStartDate (rows : List PriceRow) (sym : String) : ℤ :=
  listMin ((stockRows rows sym).map (fun r => r.date))

/-- `stock_data.index.max()` (line 180). -/
def stockEndDate (rows : List PriceRow) (sym : String) : ℤ :=
  listMax ((stockRows rows sym).map (fun r => r.date))

/-- `(stock_end - stock_start).days / 365.25` (line 181); `365.25 = 1461/4`. -/
def stockYears (rows : List PriceRow) (sym : String) : ℚ :=
  ((stockEndDate rows sym - stockStartDate rows sym : ℤ) : ℚ) / (1461 / 4)

/-- Market cap before the proxy fallback (lines 190-198): `none` when the
cell is NaN or the string fails to parse. -/
def stockMarketCap (ci : Company) : Option ℚ :=
  match ci.marketcap with
  | none => none
  | some (Sum.inl q) => some q
  | some (Sum.inr s) => parse_market_cap_string s

/-- The per-symbol record the loop body stores into `stocks_data[symbol]`
(lines 207-230): company strings, the endpoints feeding the two-point
trajectory, and the metrics block.  `annualizedReturn` and `volatility`
are derived from these fields by `StockEntry.annualizedReturn` and
`StockEntry.volatility` below, since they need `ℝ`. -/
structure StockEntry where
  name : String
  sector : String
  industry : String
  startDate : ℤ
  endDate : ℤ
  startPrice : ℚ
  endPrice : ℚ
  totalReturn : ℚ
  years : ℚ
  returns : List ℚ
  marketCap : ℚ
  normalizedEnd : ℚ
  deriving DecidableEq, Repr

/-- The body of the `for symbol in symbols` loop (lines 146-230): each
`continue` becomes `none`. -/
def processStock (rows : List PriceRow) (comps : List Company) (sym : String) :
    Option StockEntry :=
  if (stockRows rows sym).length < 252 then none
  else
    match comps.find? (fun c => c.symbol == sym) with
    | none => none
    | some ci =>
      if (stockRet rows sym).length = 0 then none
      else
        match (stockPrices rows sym).head?.join, (stockPrices rows sym).getLast?.join with
        | some sp, some ep =>
          if sp ≤ 0 then none
          else if stockYears rows sym ≤ 0 then none
          else some
            { name := ci.longname
              sector := ci.sector
              industry := ci.industry
              startDate := stockStartDate rows sym
              endDate := stockEndDate rows sym
              startPrice := sp
              endPrice := ep
              totalReturn := ep / sp - 1
              years := stockYears rows sym
              returns := stockRet rows sym
              marketCap := (stockMarketCap ci).getD (ep * 1000000)
              normalizedEnd := 100 * (1 + (ep / sp - 1)) }
        | _, _ => none

/-- The column selection unique to `src/scripts/process_data.py` line 166:
`'Adj Close' if not stock_data['Adj Close'].isna().all() else 'Close'`. -/
def scriptsPrices (rows : List PriceRow) (sym : String) : List (Option ℚ) :=
  if (stockRows rows sym).all (fun r => r.adjClose.isNone) then
    (stockRows rows sym).map (fun r => r.close)
  else (stockRows rows sym).map (fun r => r.adjClose)

/-- Loop body of `process_all_stocks_comparison_data` in
`src/scripts/process_data.py` (lines 149-236): identical to
`processStock` except that prices come from `scriptsPrices`. -/
def processStockScripts (rows : List PriceRow) (comps : List Company) (sym : String) :
    Option StockEntry :=
  if (stockRows rows sym).length < 252 then none
  else
    match comps.find? (fun c => c.symbol == sym) with
    | none => none
    | some ci =>
      if (dropNone (pctChange (scriptsPrices rows sym))).length = 0 then none
      else
        match (scriptsPrices rows sym).head?.join, (scriptsPrices rows sym).getLast?.join with
        | some sp, some ep =>
          if sp ≤ 0 then none
          else if stockYears rows sym ≤ 0 then none
          else some
            { name := ci.longname
              sector := ci.sector
              industry := ci.industry
              startDate := stockStartDate rows sym
              endDate := stockEndDate rows sym
              startPrice := sp
              endPrice := ep
              totalReturn := ep / sp - 1
              years := stockYears rows sym
              returns := dropNone (pctChange (scriptsPrices rows sym))
              marketCap := (stockMarketCap ci).getD (ep * 1000000)
              normalizedEnd := 100 * (1 + (ep / sp - 1)) }
        | _, _ => none

/-- The `'Close'` column of one symbol's rows. -/
def closePrices (rows : List PriceRow) (sym : String) : List (Option ℚ) :=
  (stockRows rows sym).map (fun r => r.close)

/-- Modelled from the spec, for comparison in claim C10: the per-symbol
computation with prices taken from the `Close` column, the behaviour the
scripts variant is claimed to show when `Adj Close` is entirely missing. -/
def processStockWithClose (rows : List PriceRow) (comps : List Company) (sym : String) :
    Option StockEntry :=
  if (stockRows rows sym).length < 252 then none
  else
    match comps.find? (fun c => c.symbol == sym) with
    | none => none
    | some ci =>
      if (dropNone (pctChange (closePrices rows sym))).length = 0 then none
      else
        match (closePrices rows sym).head?.join, (closePrices rows sym).getLast?.join with
        | some sp, some ep =>
          if sp ≤ 0 then none
          else if stockYears rows sym ≤ 0 then none
          else some
            { name := ci.longname
              sector := ci.sector
              industry := ci.industry
              startDate := stockStartDate rows sym
              endDate := stockEndDate rows sym
              startPrice := sp
              endPrice := ep
              totalReturn := ep / sp - 1
              years := stockYears rows sym
              returns := dropNone (pctChange (closePrices rows sym))
              marketCap := (stockMarketCap ci).getD (ep * 1000000)
              normalizedEnd := 100 * (1 + (ep / sp - 1)) }
        | _, _ => none

/- ------------------------------------------------------------------ -/
/- Benchmark and top level (src/process_data.py lines 123-258)         -/
/- ------------------------------------------------------------------ -/

/-- `stocks_df.groupby(level=0)['Adj Close'].mean()` (line 127): one
`(date, mean)` pair per distinct date, dates ascending. -/
def spPricesOf (rows : List PriceRow) : List (ℤ × Option ℚ) :=
  (sortInts (dedupFirst [] (rows.map (fun r => r.date)))).map
    (fun d => (d, meanOpt ((rows.filter (fun r => r.date == d)).map (fun r => r.adjClose))))

/-- The value column of the benchmark series. -/
def spVals (rows : List PriceRow) : List (Option ℚ) := (spPricesOf rows).map (fun p => p.2)

/-- `sp500_prices.index.min()` (line 131). -/
def spStartDate (rows : List PriceRow) : ℤ := listMin ((spPricesOf rows).map (fun p => p.1))

/-- `sp500_prices.index.max()` (line 132). -/
def spEndDate (rows : List PriceRow) : ℤ := listMax ((spPricesOf rows).map (fun p => p.1))

/-- `(end_date - start_date).days / 365.25` (line 133). -/
def spYears (rows : List PriceRow) : ℚ :=
  ((spEndDate rows - spStartDate rows : ℤ) : ℚ) / (1461 / 4)

/-- The benchmark record (`sp500_data`, lines 232-253), with the same
rational/`ℝ`-derivation convention as `StockEntry`; a `none` price or
return models a NaN that the source would propagate. -/
structure SPEntry where
  startDate : ℤ
  endDate : ℤ
  startPrice : Option ℚ
  endPrice : Option ℚ
  totalReturn : Option ℚ
  years : ℚ
  returns : List ℚ
  deriving DecidableEq, Repr

/-- Benchmark metrics (lines 128, 131-138 and 232-253). -/
def mkSP (rows : List PriceRow) : SPEntry :=
  { startDate := spStartDate rows
    endDate := spEndDate rows
    startPrice := (spVals rows).head?.join
    endPrice := (spVals rows).getLast?.join
    totalReturn :=
      match (spVals rows).head?.join, (spVals rows).getLast?.join with
      | some a, some b => some (b / a - 1)
      | _, _ => none
    years := spYears rows
    returns := dropNone (pctChange (spVals rows)) }

/-- `stocks_df['Symbol'].unique()` (line 144). -/
def uniqueSymbols (rows : List PriceRow) : List String :=
  dedupFirst [] (rows.map (fun r => r.symbol))

/-- The `stocks_data` dict built by the loop (lines 141-230), as an
association list in symbol order. -/
def mkStocks (rows : List PriceRow) (comps : List Company) : List (String × StockEntry) :=
  (uniqueSymbols rows).filterMap (fun s => (processStock rows comps s).map (fun e => (s, e)))

/-- Same, for the scripts variant. -/
def mkStocksScripts (rows : List PriceRow) (comps : List Company) :
    List (String × StockEntry) :=
  (uniqueSymbols rows).filterMap (fun s => (processStockScripts rows comps s).map (fun e => (s, e)))

/-- The value returned by `process_all_stocks_comparison_data` (lines
255-258). -/
structure Output where
  stocks : List (String × StockEntry)
  sp500 : SPEntry
  deriving DecidableEq, Repr

/-- `process_all_stocks_comparison_data` (src/process_data.py lines
123-258).  `none` models the two exceptions the function can raise before
building any record: `IndexError` from `.iloc` on an empty benchmark
series (line 136) and `ZeroDivisionError` from `1 / years` with
`years = 0.0` (line 137). -/
def processAllStocks (rows : List PriceRow) (comps : List Company) : Option Output :=
  if spPricesOf rows = [] then none
  else if spYears rows = 0 then none
  else some { stocks := mkStocks rows comps, sp500 := mkSP rows }

/-- `process_all_stocks_comparison_data` of `src/scripts/process_data.py`
(lines 126-264): identical except for the per-symbol price column. -/
def processAllStocksScripts (rows : List PriceRow) (comps : List Company) : Option Output :=
  if spPricesOf rows = [] then none
  else if spYears rows = 0 then none
  else some { stocks := mkStocksScripts rows comps, sp500 := mkSP rows }

/- ------------------------------------------------------------------ -/
/- Real-valued derived metrics                                         -/
/- ------------------------------------------------------------------ -/

/-- `annualized_return = (1 + total_return) ** (1 / stock_years) - 1`
(line 186), with `**` as `Real.rpow`. -/
noncomputable def StockEntry.annualizedReturn (e : StockEntry) : ℝ :=
  (1 + (e.totalReturn : ℝ)) ^ ((1 : ℝ) / (e.years : ℝ)) - 1

/-- `volatility = stock_returns.std() * np.sqrt(252) if len(stock_returns) > 1
else 0` (line 187), with `std` as the square root of the sample variance. -/
noncomputable def StockEntry.volatility (e : StockEntry) : ℝ :=
  if 1 < e.returns.length then
    Real.sqrt ((sampleVariance e.returns : ℚ) : ℝ) * Real.sqrt 252
  else 0

/-- `sp500_annualized_return` (line 137); `none` when the total return is
NaN. -/
noncomputable def SPEntry.annualizedReturn (e : SPEntry) : Option ℝ :=
  e.totalReturn.map (fun t => (1 + (t : ℝ)) ^ ((1 : ℝ) / (e.years : ℝ)) - 1)

/-- `sp500_volatility = sp500_returns.std() * np.sqrt(252)` (line 138). -/
noncomputable def SPEntry.volatility (e : SPEntry) : ℝ :=
  Real.sqrt ((sampleVariance e.returns : ℚ) : ℝ) * Real.sqrt 252

/- ------------------------------------------------------------------ -/
/- Serialized shape (the dict literals, lines 207-230 and 232-253)     -/
/- ------------------------------------------------------------------ -/

/-- The two-point `'data'` list of a per-symbol record (lines 211-222):
`(date, price, normalizedPrice)` triples. -/
def trajectory (e : StockEntry) : List (ℤ × ℚ × ℚ) :=
  [(e.startDate, e.startPrice, 100), (e.endDate, e.endPrice, e.normalizedEnd)]

/-- The two-point `'data'` list of the benchmark record (lines 235-246). -/
def trajectorySP (e : SPEntry) : List (ℤ × Option ℚ × Option ℚ) :=
  [(e.startDate, e.startPrice, some 100),
   (e.endDate, e.endPrice, e.totalReturn.map (fun t => 100 * (1 + t)))]

/-- JSON-like values, rich enough to state shape properties of the
emitted record; `jnan` stands for a propagated NaN. -/
inductive JVal where
  | jnum : ℝ → JVal
  | jnan : JVal
  | jstr : String → JVal
  | jarr : List JVal → JVal
  | jobj : List (String × JVal) → JVal

/-- Key list of a JSON object. -/
def jkeys : JVal → List String
  | JVal.jobj fs => fs.map (fun p => p.1)
  | _ => []

/-- Field access in a JSON object. -/
def jfield (v : JVal) (k : String) : Option JVal :=
  match v with
  | JVal.jobj fs => fs.lookup k
  | _ => none

/-- `Option ℚ` value as JSON: a number, or NaN when missing. -/
noncomputable def optJ : Option ℚ → JVal
  | some q => JVal.jnum (q : ℝ)
  | none => JVal.jnan

/-- The dict stored in `stocks_data[symbol]` (lines 207-230). -/
noncomputable def serializeStock (e : StockEntry) : JVal :=
  JVal.jobj
    [("name", JVal.jstr e.name),
     ("sector", JVal.jstr e.sector),
     ("industry", JVal.jstr e.industry),
     ("data", JVal.jarr ((trajectory e).map (fun t =>
        JVal.jobj [("date", JVal.jstr (toString t.1)),
                   ("price", JVal.jnum (t.2.1 : ℝ)),
                   ("normalizedPrice", JVal.jnum (t.2.2 : ℝ))]))),
     ("metrics", JVal.jobj
        [("totalReturn", JVal.jnum (e.totalReturn : ℝ)),
         ("annualizedReturn", JVal.jnum e.annualizedReturn),
         ("volatility", JVal.jnum e.volatility),
         ("years", JVal.jnum (e.years : ℝ)),
         ("marketCap", JVal.jnum (e.marketCap : ℝ))])]

/-- The top-level `sp500_data` dict (lines 233-253). -/
noncomputable def serializeSP (e : SPEntry) : JVal :=
  JVal.jobj
    [("name", JVal.jstr "S&P 500 Index"),
     ("data", JVal.jarr ((trajectorySP e).map (fun t =>
        JVal.jobj [("date", JVal.jstr (toString t.1)),
                   ("price", optJ t.2.1),
                   ("normalizedPrice", optJ t.2.2)]))),
     ("metrics", JVal.jobj
        [("totalReturn", optJ e.totalReturn),
         ("annualizedReturn",
            match e.annualizedReturn with
            | some x => JVal.jnum x
            | none => JVal.jnan),
         ("volatility", JVal.jnum e.volatility),
         ("years", JVal.jnum (e.years : ℝ))])]

/- ------------------------------------------------------------------ -/
/- Concrete fixtures used by witnesses and counterexamples             -/
/- ------------------------------------------------------------------ -/

/-- A row with equal `Close` and `Adj Close`. -/
def mkRow (sym : String) (d : ℤ) (p : ℚ) : PriceRow := ⟨sym, d, some p, some p⟩

/-- `n` rows: `n - 1` rows at date `0` with price `p0` followed by one row
at date `lastD` with price `p1`; a minimal series with `n` observations,
price moving from `p0` to `p1` over a span of `lastD` days. -/
def rampRows (sym : String) (n : ℕ) (lastD : ℤ) (p0 p1 : ℚ) : List PriceRow :=
  List.replicate (n - 1) (mkRow sym 0 p0) ++ [mkRow sym lastD p1]

def rampA : List PriceRow := rampRows "A" 252 730 100 200

def rampA300 : List PriceRow := rampRows "A" 300 730 100 200

def rampB : List PriceRow := rampRows "B" 252 365 50 55

def constC : List PriceRow := rampRows "C" 252 251 100 100

def rampD : List PriceRow := rampRows "D" 252 400 10 20

def compA : Company := ⟨"A", "Alpha Corp", "Technology", "Software", some (Sum.inl 1000000)⟩

def compB : Company := ⟨"B", "Beta Corp", "Energy", "Oil", some (Sum.inl 2000000)⟩

def compC : Company := ⟨"C", "Gamma Corp", "Utilities", "Water", some (Sum.inl 3000000)⟩

def compD : Company := ⟨"D", "Delta Corp", "Energy", "Gas", none⟩

/-- The stock entry the pipeline computes for `rampRows "A" n 730 100 200`
(`k = n - 2` intermediate zero returns). -/
def entryRampA (k : ℕ) : StockEntry :=
  ⟨"Alpha Corp", "Technology", "Software", 0, 730, 100, 200, 1, 2920 / 1461,
    List.replicate k 0 ++ [1], 1000000, 200⟩

/-- The benchmark entry for the single-symbol dataset `rampRows "A" n 730
100 200` (two distinct dates). -/
def spRampA : SPEntry :=
  ⟨0, 730, some 100, some 200, some 1, 2920 / 1461, [1]⟩

/-- The two-symbol dataset of the end-to-end scenario of claim C2:
A goes 100 → 200 over 730 days, B goes 50 → 55 over 365 days, both with
252 observations. -/
def c2rows : List PriceRow := rampA ++ rampB

/-- The stock entry the pipeline computes for symbol B of `c2rows`. -/
def entryB : StockEntry :=
  ⟨"Beta Corp", "Energy", "Oil", 0, 365, 50, 55, 1 / 10, 1460 / 1461,
    List.replicate 250 0 ++ [1 / 10], 2000000, 110⟩

/-- The stock entry the pipeline computes for the constant-price dataset
`constC`. -/
def entryC : StockEntry :=
  ⟨"Gamma Corp", "Utilities", "Water", 0, 251, 100, 100, 0, 1004 / 1461,
    List.replicate 251 0, 3000000, 100⟩

/-- The stock entry the pipeline computes for `rampD` (whose company has
no market-cap datum, so the price proxy is used). -/
def entryD : StockEntry :=
  ⟨"Delta Corp", "Energy", "Gas", 0, 400, 10, 20, 1, 1600 / 1461,
    List.replicate 250 0 ++ [1], 20000000, 200⟩

/-- A short (ineligible: fewer than 252 rows) series for symbol Z. -/
def zRows : List PriceRow := List.replicate 10 (mkRow "Z" 0 100)

/-- 252 rows for symbol N whose `Adj Close` is entirely missing while
`Close` goes 5 → 6 over 251 days. -/
def noneN : List PriceRow :=
  List.replicate 251 (⟨"N", 0, some 5, none⟩ : PriceRow) ++ [⟨"N", 251, some 6, none⟩]

def compN : Company := ⟨"N", "Nu Corp", "Technology", "Semiconductors", some (Sum.inl 7000000)⟩

/- ------------------------------------------------------------------ -/
/- List infrastructure lemmas                                          -/
/- ------------------------------------------------------------------ -/

theorem mem_dedupFirst {α : Type} [DecidableEq α] (x : α) :
    ∀ (seen l : List α), x ∈ dedupFirst seen l ↔ x ∈ l ∧ x ∉ seen := by
  intro seen l
  induction l generalizing seen with
  | nil => simp [dedupFirst]
  | cons y ys ih =>
    by_cases hy : y ∈ seen
    · rw [dedupFirst, if_pos hy, ih]
      constructor
      · rintro ⟨hx, hs⟩
        exact ⟨List.mem_cons_of_mem _ hx, hs⟩
      · rintro ⟨hx, hs⟩
        rcases List.mem_cons.mp hx with rfl | hx
        · exact absurd hy hs
        · exact ⟨hx, hs⟩
    · rw [dedupFirst, if_neg hy]
      constructor
      · intro hx
        rcases List.mem_cons.mp hx with rfl | hx
        · exact ⟨List.mem_cons_self _ _, hy⟩
        · rcases (ih _).mp hx with ⟨h1, h2⟩
          refine ⟨List.mem_cons_of_mem _ h1, fun hs => h2 ?_⟩
          exact List.mem_cons_of_mem _ hs
      · rintro ⟨hx, hs⟩
        rcases List.mem_cons.mp hx with rfl | hx
        · exact List.mem_cons_self _ _
        · by_cases hxy : x = y
          · subst hxy; exact List.mem_cons_self _ _
          · refine List.mem_cons_of_mem _ ((ih _).mpr ⟨hx, ?_⟩)
            intro hmem
            rcases List.mem_cons.mp hmem with h | h
            · exact hxy h
            · exact hs h

theorem mem_insertSorted (x a : ℤ) :
    ∀ (l : List ℤ), x ∈ insertSorted a l ↔ x = a ∨ x ∈ l := by
  intro l
  induction l with
  | nil => simp [insertSorted]
  | cons y ys ih =>
    rw [insertSorted]
    split
    · simp [List.mem_cons]
    · simp only [List.mem_cons, ih]
      tauto

theorem mem_sortInts (x : ℤ) : ∀ (l : List ℤ), x ∈ sortInts l ↔ x ∈ l := by
  intro l
  induction l with
  | nil => simp [sortInts]
  | cons y ys ih =>
    rw [sortInts, List.foldr_cons, mem_insertSorted]
    rw [sortInts] at ih
    rw [ih]
    simp [List.mem_cons]

theorem length_insertSorted (a : ℤ) :
    ∀ (l : List ℤ), (insertSorted a l).length = l.length + 1 := by
  intro l
  induction l with
  | nil => rfl
  | cons y ys ih =>
    rw [insertSorted]
    split
    · rfl
    · simp [ih]

theorem length_sortInts : ∀ (l : List ℤ), (sortInts l).length = l.length := by
  intro l
  induction l with
  | nil => rfl
  | cons y ys ih =>
    rw [sortInts, List.foldr_cons, length_insertSorted]
    rw [sortInts] at ih
    simp [ih]

theorem listMin_le : ∀ (l : List ℤ), ∀ x ∈ l, listMin l ≤ x
  | [_], x, h => by
    rcases List.mem_singleton.mp h with rfl
    exact le_refl _
  | a :: b :: bs, x, h => by
    rw [listMin]
    rcases List.mem_cons.mp h with rfl | h
    · exact min_le_left _ _
    · exact le_trans (min_le_right _ _) (listMin_le (b :: bs) x h)

theorem le_listMax : ∀ (l : List ℤ), ∀ x ∈ l, x ≤ listMax l
  | [_], x, h => by
    rcases List.mem_singleton.mp h with rfl
    exact le_refl _
  | a :: b :: bs, x, h => by
    rw [listMax]
    rcases List.mem_cons.mp h with rfl | h
    · exact le_max_left _ _
    · exact le_trans (le_listMax (b :: bs) x h) (le_max_right _ _)

theorem listMin_mem : ∀ (l : List ℤ), l ≠ [] → listMin l ∈ l
  | [_], _ => List.mem_singleton.mpr rfl
  | a :: b :: bs, _ => by
    rw [listMin]
    rcases min_cases a (listMin (b :: bs)) with ⟨h, _⟩ | ⟨h, _⟩ <;> rw [h]
    · exact List.mem_cons_self _ _
    · exact List.mem_cons_of_mem _ (listMin_mem (b :: bs) (by simp))

theorem listMax_mem : ∀ (l : List ℤ), l ≠ [] → listMax l ∈ l
  | [_], _ => List.mem_singleton.mpr rfl
  | a :: b :: bs, _ => by
    rw [listMax]
    rcases max_cases a (listMax (b :: bs)) with ⟨h, _⟩ | ⟨h, _⟩ <;> rw [h]
    · exact List.mem_cons_self _ _
    · exact List.mem_cons_of_mem _ (listMax_mem (b :: bs) (by simp))

theorem listMin_congr {l1 l2 : List ℤ} (hne : l1 ≠ [])
    (hmem : ∀ x, x ∈ l1 ↔ x ∈ l2) : listMin l1 = listMin l2 := by
  have hne2 : l2 ≠ [] := List.ne_nil_of_mem ((hmem _).mp (listMin_mem l1 hne))
  exact le_antisymm
    (listMin_le l1 _ ((hmem _).mpr (listMin_mem l2 hne2)))
    (listMin_le l2 _ ((hmem _).mp (listMin_mem l1 hne)))

theorem listMax_congr {l1 l2 : List ℤ} (hne : l1 ≠ [])
    (hmem : ∀ x, x ∈ l1 ↔ x ∈ l2) : listMax l1 = listMax l2 := by
  have hne2 : l2 ≠ [] := List.ne_nil_of_mem ((hmem _).mp (listMax_mem l1 hne))
  exact le_antisymm
    (le_listMax l2 _ ((hmem _).mp (listMax_mem l1 hne)))
    (le_listMax l1 _ ((hmem _).mpr (listMax_mem l2 hne2)))

/-- Looking a key up in the association list built by the per-symbol loop
recovers the loop body's value at that key. -/
theorem lookup_pairs (f : String → Option StockEntry) :
    ∀ (syms : List String) (s : String),
      (syms.filterMap (fun t => (f t).map (fun e => (t, e)))).lookup s =
        if s ∈ syms then f s else none := by
  intro syms
  induction syms with
  | nil => simp
  | cons t ts ih =>
    intro s
    rw [List.filterMap_cons]
    cases hft : f t with
    | none =>
      simp only [Option.map_none']
      rw [ih s]
      by_cases hst : s = t
      · subst hst; simp [hft]
      · simp [hst]
    | some v =>
      simp only [Option.map_some']
      by_cases hst : s = t
      · subst hst
        simp [List.lookup, hft]
      · have hb : (s == t) = false := beq_eq_false_iff_ne.mpr hst
        simp only [List.lookup, hb]
        rw [ih s]
        simp [hst]

/- ------------------------------------------------------------------ -/
/- Pipeline structure lemmas                                           -/
/- ------------------------------------------------------------------ -/

theorem spPricesOf_keys (rows : List PriceRow) :
    (spPricesOf rows).map (fun p => p.1) =
      sortInts (dedupFirst [] (rows.map (fun r => r.date))) := by
  rw [spPricesOf, List.map_map]
  exact List.map_id'' (fun x => rfl) _

theorem mem_spPricesOf_keys (rows : List PriceRow) (d : ℤ) :
    d ∈ (spPricesOf rows).map (fun p => p.1) ↔ d ∈ rows.map (fun r => r.date) := by
  rw [spPricesOf_keys, mem_sortInts, mem_dedupFirst]
  simp

theorem spPricesOf_eq_nil (rows : List PriceRow) : spPricesOf rows = [] ↔ rows = [] := by
  constructor
  · intro h
    have hl := congrArg List.length (spPricesOf_keys rows)
    rw [h] at hl
    simp only [List.map_nil, List.length_nil, length_sortInts] at hl
    cases hr : rows with
    | nil => rfl
    | cons r rs =>
      rw [hr] at hl
      rw [show dedupFirst [] ((r :: rs).map (fun r => r.date)) =
            r.date :: dedupFirst [r.date] (rs.map (fun r => r.date)) from by
          simp [dedupFirst]] at hl
      simp at hl
  · intro h
    subst h
    rfl

theorem spStartDate_eq (rows : List PriceRow) (h : rows ≠ []) :
    spStartDate rows = listMin (rows.map (fun r => r.date)) := by
  rw [spStartDate]
  refine listMin_congr ?_ (mem_spPricesOf_keys rows)
  intro hnil
  exact h ((spPricesOf_eq_nil rows).mp (List.map_eq_nil_iff.mp hnil))

theorem spEndDate_eq (rows : List PriceRow) (h : rows ≠ []) :
    spEndDate rows = listMax (rows.map (fun r => r.date)) := by
  rw [spEndDate]
  refine listMax_congr ?_ (mem_spPricesOf_keys rows)
  intro hnil
  exact h ((spPricesOf_eq_nil rows).mp (List.map_eq_nil_iff.mp hnil))

theorem stockRows_append (rows extra : List PriceRow) (sym : String) :
    stockRows (rows ++ extra) sym = stockRows rows sym ++ stockRows extra sym := by
  simp [stockRows]

theorem stockRows_of_ne (extra : List PriceRow) (sym : String)
    (h : ∀ r ∈ extra, r.symbol ≠ sym) : stockRows extra sym = [] := by
  rw [stockRows, List.filter_eq_nil_iff]
  intro r hr
  simpa using h r hr

/-- A failing symbol is skipped: inversion of `processStock = some e`,
recovering every guard and every field of the record. -/
theorem processStock_some {rows : List PriceRow} {comps : List Company} {sym : String}
    {e : StockEntry} (h : processStock rows comps sym = some e) :
    ∃ ci, comps.find? (fun c => c.symbol == sym) = some ci ∧
      ¬ (stockRows rows sym).length < 252 ∧
      stockRet rows sym ≠ [] ∧
      (stockPrices rows sym).head?.join = some e.startPrice ∧
      (stockPrices rows sym).getLast?.join = some e.endPrice ∧
      0 < e.startPrice ∧
      e.totalReturn = e.endPrice / e.startPrice - 1 ∧
      e.startDate = stockStartDate rows sym ∧
      e.endDate = stockEndDate rows sym ∧
      e.years = stockYears rows sym ∧
      0 < e.years ∧
      e.returns = stockRet rows sym ∧
      e.marketCap = (stockMarketCap ci).getD (e.endPrice * 1000000) ∧
      e.normalizedEnd = 100 * (1 + e.totalReturn) ∧
      e.name = ci.longname ∧ e.sector = ci.sector ∧ e.industry = ci.industry := by
  unfold processStock at h
  split at h
  · exact absurd h (by simp)
  rename_i hlen
  split at h
  · exact absurd h (by simp)
  rename_i ci hci
  split at h
  · exact absurd h (by simp)
  rename_i hret
  split at h
  rename_i sp ep hsp hep
  · split at h
    · exact absurd h (by simp)
    rename_i hsp0
    split at h
    · exact absurd h (by simp)
    rename_i hyr
    rw [Option.some_inj] at h
    subst h
    refine ⟨ci, hci, hlen, fun hnil => hret (by rw [hnil]; rfl), hsp, hep, ?_⟩
    simp only [not_le] at hsp0 hyr
    exact ⟨hsp0, rfl, rfl, rfl, rfl, hyr, rfl, rfl, rfl, rfl, rfl, rfl⟩
  · exact absurd h (by simp)

/-- Inversion for the top level: a successful run fixes both components
and both benchmark guards. -/
theorem processAllStocks_some {rows : List PriceRow} {comps : List Company} {out : Output}
    (h : processAllStocks rows comps = some out) :
    out.stocks = mkStocks rows comps ∧ out.sp500 = mkSP rows ∧
      spPricesOf rows ≠ [] ∧ spYears rows ≠ 0 := by
  unfold processAllStocks at h
  split at h
  · exact absurd h (by simp)
  rename_i h1
  split at h
  · exact absurd h (by simp)
  rename_i h2
  rw [Option.some_inj] at h
  subst h
  exact ⟨rfl, rfl, h1, h2⟩

/-- Converse direction: when both benchmark guards pass, the run
succeeds with the canonical components. -/
theorem processAllStocks_eq_some {rows : List PriceRow} {comps : List Company}
    (h1 : spPricesOf rows ≠ []) (h2 : spYears rows ≠ 0) :
    processAllStocks rows comps = some { stocks := mkStocks rows comps, sp500 := mkSP rows } := by
  unfold processAllStocks
  rw [if_neg h1, if_neg h2]

/-- Key lookup in the stocks mapping is exactly the loop body. -/
theorem lookup_mkStocks (rows : List PriceRow) (comps : List Company) (s : String) :
    (mkStocks rows comps).lookup s =
      if s ∈ uniqueSymbols rows then processStock rows comps s else none :=
  lookup_pairs (processStock rows comps) (uniqueSymbols rows) s

/-- Same for the scripts variant. -/
theorem lookup_mkStocksScripts (rows : List PriceRow) (comps : List Company) (s : String) :
    (mkStocksScripts rows comps).lookup s =
      if s ∈ uniqueSymbols rows then processStockScripts rows comps s else none :=
  lookup_pairs (processStockScripts rows comps) (uniqueSymbols rows) s

/-- A key found in the stocks mapping was produced by the loop body. -/
theorem lookup_mkStocks_some {rows : List PriceRow} {comps : List Company} {s : String}
    {e : StockEntry} (h : (mkStocks rows comps).lookup s = some e) :
    processStock rows comps s = some e := by
  rw [lookup_mkStocks] at h
  split at h
  · exact h
  · exact absurd h (by simp)

theorem sampleVariance_nonneg (xs : List ℚ) : 0 ≤ sampleVariance xs := by
  rw [sampleVariance]
  cases xs with
  | nil => norm_num
  | cons x l =>
    apply div_nonneg
    · apply List.sum_nonneg
      intro q hq
      rcases List.mem_map.mp hq with ⟨y, _, rfl⟩
      exact sq_nonneg _
    · have : (1 : ℚ) ≤ ((x :: l).length : ℚ) := by
        exact_mod_cast Nat.succ_le_of_lt (List.length_pos.mpr (by simp))
      linarith

/-- `pct_change` of an all-missing series has no valid return. -/
theorem dropNone_pctChange_of_all_none {ps : List (Option ℚ)}
    (h : ∀ x ∈ ps, x = none) : dropNone (pctChange ps) = [] := by
  rw [dropNone, pctChange, List.filterMap_eq_nil_iff]
  intro a ha
  rcases List.mem_map.mp ha with ⟨p, hp, rfl⟩
  have h1 := h p.1 (List.of_mem_zip hp).1
  cases hp2 : p
  rw [hp2] at h1
  simp only at h1
  subst h1
  rfl

/- ------------------------------------------------------------------ -/
/- Claim theorems                                                      -/
/- ------------------------------------------------------------------ -/

/-- Claim C4: the market-capitalization parser maps "1.2T" to 1.2e12,
"500.5B" to 5.005e11, "10.3M" to 1.03e7, "$1,000" to 1000.0 and
"garbage" to no value; and every emitted symbol whose market-cap field is
absent or unparseable gets the proxy `end_price * 1,000,000`. -/
theorem market_cap_parse_and_fallback :
    parse_market_cap_string "1.2T" = some 1200000000000 ∧
    parse_market_cap_string "500.5B" = some 500500000000 ∧
    parse_market_cap_string "10.3M" = some 10300000 ∧
    parse_market_cap_string "$1,000" = some 1000 ∧
    parse_market_cap_string "garbage" = none ∧
    ∀ (rows : List PriceRow) (comps : List Company) (sym : String) (out : Output)
      (e : StockEntry) (ci : Company),
      processAllStocks rows comps = some out →
      out.stocks.lookup sym = some e →
      comps.find? (fun c => c.symbol == sym) = some ci →
      (ci.marketcap = none ∨
        ∃ s0, ci.marketcap = some (Sum.inr s0) ∧ parse_market_cap_string s0 = none) →
      e.marketCap = e.endPrice * 1000000 := by
  refine ⟨by decide, by decide, by decide, by decide, by decide, ?_⟩
  intro rows comps sym out e ci h hl hfind hcap
  obtain ⟨hst, -, -, -⟩ := processAllStocks_some h
  rw [hst] at hl
  have hp := lookup_mkStocks_some hl
  obtain ⟨ci2, hfind2, -, -, -, -, -, -, -, -, -, -, -, hmc, -, -, -, -⟩ :=
    processStock_some hp
  have hci : ci2 = ci := Option.some_inj.mp (hfind2.symm.trans hfind)
  subst hci
  have hnone : stockMarketCap ci2 = none := by
    rcases hcap with hc | ⟨s0, hc, hps⟩
    · simp [stockMarketCap, hc]
    · simp [stockMarketCap, hc, hps]
  rw [hmc, hnone, Option.getD_none]

/-- Witness for claim C4 at a concrete dataset whose company record has a
missing market-cap cell. -/
theorem market_cap_parse_and_fallback_witness :
    entryD.marketCap = entryD.endPrice * 1000000 :=
  market_cap_parse_and_fallback.2.2.2.2.2 rampD [compD] "D"
    ⟨[("D", entryD)], ⟨0, 400, some 10, some 20, some 1, 1600 / 1461, [1]⟩⟩
    entryD compD (by decide) (by decide) (by decide) (Or.inl rfl)

/-- Claim C8: with a benchmark series of fewer than two distinct dates,
or an empty price table, the core signals failure (an exception, modelled
as `none`) instead of returning a degenerate record. -/
theorem benchmark_degenerate_fails (rows : List PriceRow) (comps : List Company)
    (h : (dedupFirst [] (rows.map (fun r => r.date))).length < 2 ∨ rows = []) :
    processAllStocks rows comps = none := by
  have hnil : rows = [] → processAllStocks rows comps = none := by
    intro hr
    subst hr
    rfl
  rcases h with h | h
  · have h01 : (dedupFirst [] (rows.map (fun r => r.date))).length = 0 ∨
        (dedupFirst [] (rows.map (fun r => r.date))).length = 1 := by omega
    rcases h01 with h0 | h1
    · rw [List.length_eq_zero] at h0
      cases hr : rows with
      | nil => rfl
      | cons r rs =>
        rw [hr] at h0
        rw [show dedupFirst [] ((r :: rs).map (fun x => x.date)) =
              r.date :: dedupFirst [r.date] (rs.map (fun x => x.date)) from by
            simp [dedupFirst]] at h0
        simp at h0
    · obtain ⟨d, hd⟩ := List.length_eq_one.mp h1
      have hkeys : (spPricesOf rows).map (fun p => p.1) = [d] := by
        rw [spPricesOf_keys, hd]
        rfl
      have hy : spYears rows = 0 := by
        rw [spYears, spStartDate, spEndDate, hkeys]
        norm_num [listMin, listMax]
      have hne : spPricesOf rows ≠ [] := by
        intro hnil2
        rw [hnil2] at hkeys
        simp at hkeys
      unfold processAllStocks
      rw [if_neg hne, if_pos hy]
  · exact hnil h

/-- Witness for claim C8 at a one-date dataset. -/
theorem benchmark_degenerate_fails_witness :
    processAllStocks [⟨"A", 0, some 1, some 1⟩] [compA] = none :=
  benchmark_degenerate_fails [⟨"A", 0, some 1, some 1⟩] [compA] (Or.inl (by decide))

/-- Counterexample to claim C3 as stated: an emitted symbol with constant
prices has 251 return observations (≥ 2) and volatility exactly 0, so
"volatility equals 0 exactly when fewer than 2 return observations exist"
fails. -/
theorem volatility_zero_counterexample :
    (processAllStocks constC [compC]).bind (fun o => o.stocks.lookup "C") = some entryC ∧
    1 < entryC.returns.length ∧
    StockEntry.volatility entryC = 0 := by
  refine ⟨by decide, by decide, ?_⟩
  rw [StockEntry.volatility, if_pos (by decide)]
  rw [show sampleVariance entryC.returns = 0 from by decide]
  simp

/-- Claim C3, amended: for every emitted symbol the volatility is the
sample standard deviation of the per-period returns times √252 (when at
least two returns exist), it is nonnegative, it is 0 whenever fewer than
2 return observations exist, and it is 0 exactly when fewer than 2
returns exist or all returns are equal (zero sample variance). -/
theorem volatility_properties (rows : List PriceRow) (comps : List Company)
    (out : Output) (sym : String) (e : StockEntry)
    (_h : processAllStocks rows comps = some out) (_hl : out.stocks.lookup sym = some e) :
    (1 < e.returns.length →
      StockEntry.volatility e =
        Real.sqrt ((sampleVariance e.returns : ℚ) : ℝ) * Real.sqrt 252) ∧
    0 ≤ StockEntry.volatility e ∧
    (e.returns.length < 2 → StockEntry.volatility e = 0) ∧
    (StockEntry.volatility e = 0 ↔
      e.returns.length < 2 ∨ sampleVariance e.returns = 0) := by
  refine ⟨fun h2 => by rw [StockEntry.volatility, if_pos h2], ?_, ?_, ?_⟩
  · rw [StockEntry.volatility]
    split
    · exact mul_nonneg (Real.sqrt_nonneg _) (Real.sqrt_nonneg _)
    · exact le_refl 0
  · intro h2
    rw [StockEntry.volatility, if_neg (by omega)]
  · rw [StockEntry.volatility]
    split
    · rename_i h2
      constructor
      · intro hv
        rcases mul_eq_zero.mp hv with hv1 | hv2
        · right
          have hge : (0 : ℝ) ≤ ((sampleVariance e.returns : ℚ) : ℝ) := by
            exact_mod_cast sampleVariance_nonneg e.returns
          have : ((sampleVariance e.returns : ℚ) : ℝ) = 0 :=
            le_antisymm (Real.sqrt_eq_zero'.mp hv1) hge
          exact_mod_cast this
        · exfalso
          have : (252 : ℝ) ≤ 0 := Real.sqrt_eq_zero'.mp hv2
          norm_num at this
      · rintro (hn | hv)
        · omega
        · rw [hv]
          simp
    · rename_i h2
      simp only [true_iff]
      left
      omega

/-- Witness for the amended claim C3 at the constant-price dataset. -/
theorem volatility_properties_witness :
    0 ≤ StockEntry.volatility entryC ∧
    (StockEntry.volatility entryC = 0 ↔
      entryC.returns.length < 2 ∨ sampleVariance entryC.returns = 0) := by
  have h := volatility_properties constC [compC]
    ⟨[("C", entryC)], ⟨0, 251, some 100, some 100, some 0, 1004 / 1461, [0]⟩⟩ "C" entryC
    (by decide) (by decide)
  exact ⟨h.2.1, h.2.2.2⟩

/-- Claim C6: every emitted trajectory (per symbol and benchmark) has
exactly two points; the first normalized price is exactly 100 and the
second is `100 * (1 + total_return)`, i.e. `100 * end_price/start_price`. -/
theorem trajectory_two_points (rows : List PriceRow) (comps : List Company) (out : Output)
    (h : processAllStocks rows comps = some out) :
    (∀ sym e, out.stocks.lookup sym = some e →
      trajectory e = [(e.startDate, e.startPrice, 100),
        (e.endDate, e.endPrice, 100 * e.endPrice / e.startPrice)] ∧
      (trajectory e).length = 2) ∧
    trajectorySP out.sp500 =
      [(out.sp500.startDate, out.sp500.startPrice, some 100),
       (out.sp500.endDate, out.sp500.endPrice,
         out.sp500.totalReturn.map (fun t => 100 * (1 + t)))] ∧
    (∀ a b, out.sp500.startPrice = some a → out.sp500.endPrice = some b →
      out.sp500.totalReturn.map (fun t => 100 * (1 + t)) = some (100 * b / a)) ∧
    (trajectorySP out.sp500).length = 2 := by
  obtain ⟨hst, hspq, -, -⟩ := processAllStocks_some h
  refine ⟨?_, rfl, ?_, rfl⟩
  · intro sym e hl
    rw [hst] at hl
    have hp := lookup_mkStocks_some hl
    obtain ⟨ci, -, -, -, -, -, -, htr, -, -, -, -, -, -, hnorm, -, -, -⟩ :=
      processStock_some hp
    have hend : e.normalizedEnd = 100 * e.endPrice / e.startPrice := by
      rw [hnorm, htr]
      ring
    exact ⟨by rw [trajectory, hend], rfl⟩
  · intro a b ha hb
    rw [hspq] at ha hb ⊢
    rw [mkSP] at ha hb ⊢
    simp only at ha hb ⊢
    rw [ha, hb]
    simp only [Option.map_some']
    congr 1
    ring

/-- Witness for claim C6 at a concrete dataset. -/
theorem trajectory_two_points_witness :
    trajectory (entryRampA 250) =
      [((entryRampA 250).startDate, (entryRampA 250).startPrice, 100),
       ((entryRampA 250).endDate, (entryRampA 250).endPrice,
        100 * (entryRampA 250).endPrice / (entryRampA 250).startPrice)] ∧
    (trajectorySP spRampA).length = 2 := by
  have h := trajectory_two_points rampA [compA] ⟨[("A", entryRampA 250)], spRampA⟩ (by decide)
  exact ⟨(h.1 "A" (entryRampA 250) (by decide)).1, h.2.2.2⟩

/-- Claim C1: for every symbol the engine emits, the annualized return is
`(1 + total_return) ** (1/years) - 1` with `total_return = end/start - 1`
and `years = span_days / 365.25`; it depends only on the first price, the
last price and the span, so two emitted series agreeing on those agree on
the annualized return. -/
theorem annualized_return_spec
    (rows1 rows2 : List PriceRow) (comps1 comps2 : List Company) (sym1 sym2 : String)
    (out1 out2 : Output) (e1 e2 : StockEntry) (sp ep : ℚ)
    (h1 : processAllStocks rows1 comps1 = some out1)
    (hl1 : out1.stocks.lookup sym1 = some e1)
    (h2 : processAllStocks rows2 comps2 = some out2)
    (hl2 : out2.stocks.lookup sym2 = some e2)
    (hsp : (stockPrices rows1 sym1).head?.join = some sp)
    (hep : (stockPrices rows1 sym1).getLast?.join = some ep)
    (hfp : (stockPrices rows2 sym2).head?.join = some sp)
    (hlp : (stockPrices rows2 sym2).getLast?.join = some ep)
    (hspan : stockEndDate rows2 sym2 - stockStartDate rows2 sym2 =
      stockEndDate rows1 sym1 - stockStartDate rows1 sym1) :
    StockEntry.annualizedReturn e1 =
      (1 + ((ep / sp - 1 : ℚ) : ℝ)) ^
        ((1 : ℝ) /
          (((stockEndDate rows1 sym1 - stockStartDate rows1 sym1 : ℤ) : ℝ) / (365.25 : ℝ))) -
        1 ∧
    StockEntry.annualizedReturn e1 = StockEntry.annualizedReturn e2 := by
  obtain ⟨hst1, -, -, -⟩ := processAllStocks_some h1
  rw [hst1] at hl1
  obtain ⟨-, -, -, -, hsp1, hep1, -, htr1, -, -, hy1, -, -, -, -, -, -, -⟩ :=
    processStock_some (lookup_mkStocks_some hl1)
  obtain ⟨hst2, -, -, -⟩ := processAllStocks_some h2
  rw [hst2] at hl2
  obtain ⟨-, -, -, -, hsp2, hep2, -, htr2, -, -, hy2, -, -, -, -, -, -, -⟩ :=
    processStock_some (lookup_mkStocks_some hl2)
  have hs1 : e1.startPrice = sp := Option.some_inj.mp (hsp1.symm.trans hsp)
  have he1 : e1.endPrice = ep := Option.some_inj.mp (hep1.symm.trans hep)
  have hs2 : e2.startPrice = sp := Option.some_inj.mp (hsp2.symm.trans hfp)
  have he2 : e2.endPrice = ep := Option.some_inj.mp (hep2.symm.trans hlp)
  have hyy : ∀ (rows : List PriceRow) (sym : String),
      ((stockYears rows sym : ℚ) : ℝ) =
        ((stockEndDate rows sym - stockStartDate rows sym : ℤ) : ℝ) / (365.25 : ℝ) := by
    intro rows sym
    rw [stockYears]
    push_cast
    norm_num
  have hform : StockEntry.annualizedReturn e1 =
      (1 + ((ep / sp - 1 : ℚ) : ℝ)) ^
        ((1 : ℝ) /
          (((stockEndDate rows1 sym1 - stockStartDate rows1 sym1 : ℤ) : ℝ) / (365.25 : ℝ))) -
        1 := by
    rw [StockEntry.annualizedReturn, htr1, hs1, he1, hy1, hyy]
  refine ⟨hform, ?_⟩
  rw [hform, StockEntry.annualizedReturn, htr2, hs2, he2, hy2, hyy, hspan]

/-- Witness for claim C1: two series for symbol A with the same
endpoints and span but 250 vs 298 intermediate observations produce the
same annualized return. -/
theorem annualized_return_spec_witness :
    StockEntry.annualizedReturn (entryRampA 250) =
      (1 + (((200 : ℚ) / 100 - 1 : ℚ) : ℝ)) ^
        ((1 : ℝ) /
          (((stockEndDate rampA "A" - stockStartDate rampA "A" : ℤ) : ℝ) / (365.25 : ℝ))) -
        1 ∧
    StockEntry.annualizedReturn (entryRampA 250) =
      StockEntry.annualizedReturn (entryRampA 298) :=
  annualized_return_spec rampA rampA300 [compA] [compA] "A" "A"
    ⟨[("A", entryRampA 250)], spRampA⟩ ⟨[("A", entryRampA 298)], spRampA⟩
    (entryRampA 250) (entryRampA 298) 100 200
    (by decide) (by decide) (by decide) (by decide)
    (by decide) (by decide) (by decide) (by decide) (by decide)

/-- Counterexample to claim C2 as stated: on the two-symbol scenario
dataset the engine's annualized return for A is `2 ^ (1461/2920) - 1`
(≈ 41.5%), not `2 ^ (1/2) - 1`, because 730 days is `730/365.25 ≈ 1.9986`
years, not exactly 2. -/
theorem endtoend_two_symbol_counterexample :
    (processAllStocks c2rows [compA, compB]).bind (fun o => o.stocks.lookup "A") =
      some (entryRampA 250) ∧
    StockEntry.annualizedReturn (entryRampA 250) ≠ (2 : ℝ) ^ ((1 : ℝ) / 2) - 1 := by
  refine ⟨by decide, ?_⟩
  have h1 : StockEntry.annualizedReturn (entryRampA 250) =
      (2 : ℝ) ^ ((1461 : ℝ) / 2920) - 1 := by
    rw [StockEntry.annualizedReturn]
    rw [show ((entryRampA 250).totalReturn : ℝ) = 1 from by norm_num [entryRampA]]
    rw [show ((entryRampA 250).years : ℝ) = 2920 / 1461 from by
      rw [show (entryRampA 250).years = (2920 / 1461 : ℚ) from rfl]
      push_cast
      norm_num]
    norm_num
  rw [h1]
  intro heq
  have hlt : (2 : ℝ) ^ ((1 : ℝ) / 2) < (2 : ℝ) ^ ((1461 : ℝ) / 2920) :=
    (Real.rpow_lt_rpow_left_iff (by norm_num)).mpr (by norm_num)
  rw [sub_left_inj] at heq
  rw [heq] at hlt
  exact lt_irrefl _ hlt

/-- Claim C2, amended: on the two-symbol scenario dataset the engine
reports A's annualized return as exactly `2 ^ (1461/2920) - 1` and B's as
exactly `(11/10) ^ (1461/1460) - 1`, since the spans are `730/365.25`
and `365/365.25` years rather than exactly 2 and 1. -/
theorem endtoend_two_symbol_amended :
    (processAllStocks c2rows [compA, compB]).bind (fun o => o.stocks.lookup "A") =
      some (entryRampA 250) ∧
    (processAllStocks c2rows [compA, compB]).bind (fun o => o.stocks.lookup "B") =
      some entryB ∧
    StockEntry.annualizedReturn (entryRampA 250) = (2 : ℝ) ^ ((1461 : ℝ) / 2920) - 1 ∧
    StockEntry.annualizedReturn entryB = ((11 : ℝ) / 10) ^ ((1461 : ℝ) / 1460) - 1 := by
  refine ⟨by decide, by decide, ?_, ?_⟩
  · rw [StockEntry.annualizedReturn]
    rw [show ((entryRampA 250).totalReturn : ℝ) = 1 from by norm_num [entryRampA]]
    rw [show ((entryRampA 250).years : ℝ) = 2920 / 1461 from by
      rw [show (entryRampA 250).years = (2920 / 1461 : ℚ) from rfl]
      push_cast
      norm_num]
    norm_num
  · rw [StockEntry.annualizedReturn]
    rw [show (entryB.totalReturn : ℝ) = 1 / 10 from by
      rw [show entryB.totalReturn = (1 / 10 : ℚ) from rfl]
      push_cast
      norm_num]
    rw [show (entryB.years : ℝ) = 1460 / 1461 from by
      rw [show entryB.years = (1460 / 1461 : ℚ) from rfl]
      push_cast
      norm_num]
    norm_num

/-- Pointwise-equal option maps give the same `filterMap`. -/
theorem filterMap_congr_mem {α β : Type} (l : List α) (f g : α → Option β)
    (h : ∀ a ∈ l, f a = g a) : l.filterMap f = l.filterMap g := by
  induction l with
  | nil => rfl
  | cons a as ih =>
    rw [List.filterMap_cons, List.filterMap_cons, h a (List.mem_cons_self a as),
      ih (fun x hx => h x (List.mem_cons_of_mem a hx))]

/-- Claim C5: a symbol failing any eligibility check (missing company
metadata, fewer than 252 observations, no valid return, missing or
non-positive start price, missing end price, non-positive span) is absent
from the output's key set; and the presence of a symbol's rows never
aborts the batch nor alters any other symbol's record. -/
theorem skip_policy (rows extra : List PriceRow) (comps : List Company) (sym s2 : String)
    (out : Output) (hex : ∀ r ∈ extra, r.symbol = sym) (hne : s2 ≠ sym)
    (h : processAllStocks rows comps = some out) :
    ((comps.find? (fun c => c.symbol == sym) = none ∨
      (stockRows rows sym).length < 252 ∨
      stockRet rows sym = [] ∨
      (stockPrices rows sym).head?.join = none ∨
      (∃ q, (stockPrices rows sym).head?.join = some q ∧ q ≤ 0) ∨
      (stockPrices rows sym).getLast?.join = none ∨
      stockYears rows sym ≤ 0) →
      out.stocks.lookup sym = none) ∧
    ∃ out2, processAllStocks (rows ++ extra) comps = some out2 ∧
      out2.stocks.lookup s2 = out.stocks.lookup s2 := by
  obtain ⟨hst, -, hne1, hy1⟩ := processAllStocks_some h
  constructor
  · intro hdisj
    rw [hst, lookup_mkStocks]
    split
    · cases hps : processStock rows comps sym with
      | none => rfl
      | some e =>
        exfalso
        obtain ⟨ci, hf1, hf2, hf3, hf4, hf5, hf6, -, -, -, hf10, hf11, -, -, -, -, -, -⟩ :=
          processStock_some hps
        rcases hdisj with hd | hd | hd | hd | ⟨q, hq, hq0⟩ | hd | hd
        · exact absurd (hf1.symm.trans hd) (by simp)
        · exact hf2 hd
        · exact hf3 hd
        · exact absurd (hf4.symm.trans hd) (by simp)
        · have hqe : q = e.startPrice := Option.some_inj.mp (hq.symm.trans hf4)
          subst hqe
          exact absurd hf6 (not_lt.mpr hq0)
        · exact absurd (hf5.symm.trans hd) (by simp)
        · rw [← hf10] at hd
          exact absurd hf11 (not_lt.mpr hd)
    · rfl
  · have hrowsne : rows ≠ [] := by
      intro hr
      exact hne1 (by rw [hr]; rfl)
    have hdatene : rows.map (fun r => r.date) ≠ [] := by
      intro hd
      exact hrowsne (List.map_eq_nil_iff.mp hd)
    have happne : rows ++ extra ≠ [] := by
      intro hd
      exact hrowsne (List.append_eq_nil.mp hd).1
    have hne2 : spPricesOf (rows ++ extra) ≠ [] := by
      intro hnil
      exact happne ((spPricesOf_eq_nil _).mp hnil)
    have hadatene : (rows ++ extra).map (fun r => r.date) ≠ [] := by
      intro hd
      exact happne (List.map_eq_nil_iff.mp hd)
    have hstart2 : spStartDate (rows ++ extra) ≤ spStartDate rows := by
      rw [spStartDate_eq _ hrowsne, spStartDate_eq _ happne]
      apply listMin_le
      rw [List.map_append]
      exact List.mem_append_left _ (listMin_mem _ hdatene)
    have hend2 : spEndDate rows ≤ spEndDate (rows ++ extra) := by
      rw [spEndDate_eq _ hrowsne, spEndDate_eq _ happne]
      apply le_listMax
      rw [List.map_append]
      exact List.mem_append_left _ (listMax_mem _ hdatene)
    have hlt : spStartDate rows < spEndDate rows := by
      have hle : spStartDate rows ≤ spEndDate rows := by
        rw [spStartDate_eq _ hrowsne, spEndDate_eq _ hrowsne]
        exact le_listMax _ _ (listMin_mem _ hdatene)
      refine lt_of_le_of_ne hle ?_
      intro heq
      apply hy1
      rw [spYears, heq]
      simp
    have hy2 : spYears (rows ++ extra) ≠ 0 := by
      have hlt2 : spStartDate (rows ++ extra) < spEndDate (rows ++ extra) :=
        lt_of_le_of_lt hstart2 (lt_of_lt_of_le hlt hend2)
      intro h0
      rw [spYears, div_eq_zero_iff] at h0
      rcases h0 with h0 | h0
      · have hz : (spEndDate (rows ++ extra) - spStartDate (rows ++ extra) : ℤ) = 0 := by
          exact_mod_cast h0
        omega
      · norm_num at h0
    refine ⟨_, processAllStocks_eq_some hne2 hy2, ?_⟩
    have hmem : s2 ∈ uniqueSymbols (rows ++ extra) ↔ s2 ∈ uniqueSymbols rows := by
      rw [uniqueSymbols, uniqueSymbols, mem_dedupFirst, mem_dedupFirst, List.map_append]
      simp only [List.mem_append, List.not_mem_nil, not_false_iff, and_true]
      constructor
      · rintro (hm | hm)
        · exact hm
        · exfalso
          rcases List.mem_map.mp hm with ⟨r, hr, hr2⟩
          exact hne (hr2.symm.trans (hex r hr)).symm.symm
      · exact Or.inl
    have hsr : stockRows (rows ++ extra) s2 = stockRows rows s2 := by
      rw [stockRows_append, stockRows_of_ne extra s2 (fun r hr => by
        rw [hex r hr]
        exact Ne.symm hne), List.append_nil]
    have hproc : processStock (rows ++ extra) comps s2 = processStock rows comps s2 := by
      simp only [processStock, stockRet, stockPrices, stockStartDate, stockEndDate,
        stockYears, hsr]
    rw [hst]
    simp only [lookup_mkStocks]
    by_cases hm : s2 ∈ uniqueSymbols rows
    · rw [if_pos hm, if_pos (hmem.mpr hm), hproc]
    · rw [if_neg hm, if_neg (fun hc => hm (hmem.mp hc))]

/-- Witness for claim C5: a short (10-row) symbol Z is skipped, and
appending Z's rows leaves symbol A's record unchanged. -/
theorem skip_policy_witness :
    (Output.mk [("A", entryRampA 250)] spRampA).stocks.lookup "Z" = none ∧
    ∃ out2, processAllStocks (rampA ++ zRows) [compA] = some out2 ∧
      out2.stocks.lookup "A" = (Output.mk [("A", entryRampA 250)] spRampA).stocks.lookup "A" := by
  have h := skip_policy rampA zRows [compA] "Z" "A" ⟨[("A", entryRampA 250)], spRampA⟩
    (by decide) (by decide) (by decide)
  exact ⟨h.1 (Or.inr (Or.inl (by decide))), h.2⟩

/-- Claim C10: the two implementations agree whenever every symbol's
`Adj Close` series has at least one non-missing value; and for a symbol
whose `Adj Close` is entirely missing, the base variant skips it while
the scripts variant computes it from the `Close` column. -/
theorem variants_agree (rows : List PriceRow) (comps : List Company) :
    ((∀ s ∈ uniqueSymbols rows, ∃ r ∈ stockRows rows s, r.adjClose ≠ none) →
      processAllStocksScripts rows comps = processAllStocks rows comps) ∧
    ∀ s, (∀ r ∈ stockRows rows s, r.adjClose = none) →
      processStock rows comps s = none ∧
      processStockScripts rows comps s = processStockWithClose rows comps s := by
  constructor
  · intro hall
    unfold processAllStocksScripts processAllStocks
    by_cases hg1 : spPricesOf rows = []
    · rw [if_pos hg1, if_pos hg1]
    · by_cases hg2 : spYears rows = 0
      · rw [if_neg hg1, if_neg hg1, if_pos hg2, if_pos hg2]
      · rw [if_neg hg1, if_neg hg1, if_neg hg2, if_neg hg2]
        have hstocks : mkStocksScripts rows comps = mkStocks rows comps := by
          rw [mkStocksScripts, mkStocks]
          apply filterMap_congr_mem
          intro s hs
          obtain ⟨r, hr, hrne⟩ := hall s hs
          have hcond : ¬ ((stockRows rows s).all (fun r => r.adjClose.isNone) = true) := by
            rw [List.all_eq_true]
            intro hfa
            exact hrne (Option.isNone_iff_eq_none.mp (hfa r hr))
          have hpr : scriptsPrices rows s = stockPrices rows s := by
            rw [scriptsPrices, if_neg hcond]
            rfl
          rw [show processStockScripts rows comps s = processStock rows comps s from by
            unfold processStockScripts processStock stockRet
            rw [hpr]]
        rw [hstocks]
  · intro s hallnone
    constructor
    · have hret : stockRet rows s = [] := by
        rw [stockRet]
        apply dropNone_pctChange_of_all_none
        intro x hx
        rcases List.mem_map.mp hx with ⟨r, hr, rfl⟩
        exact hallnone r hr
      unfold processStock
      split
      · rfl
      split
      · rfl
      rw [if_pos (by rw [hret]; rfl)]
    · have hcond : (stockRows rows s).all (fun r => r.adjClose.isNone) = true := by
        rw [List.all_eq_true]
        intro r hr
        rw [hallnone r hr]
        rfl
      have hpr : scriptsPrices rows s = closePrices rows s := by
        rw [scriptsPrices, if_pos hcond]
        rfl
      unfold processStockScripts processStockWithClose
      rw [hpr]

/-- Witness for claim C10: the two variants coincide on a dataset with
adjusted closes present, and on a dataset whose symbol N has no adjusted
closes the base variant skips N while the scripts variant equals the
Close-column computation. -/
theorem variants_agree_witness :
    processAllStocksScripts rampA [compA] = processAllStocks rampA [compA] ∧
    processStock (rampA ++ noneN) [compA, compN] "N" = none ∧
    processStockScripts (rampA ++ noneN) [compA, compN] "N" =
      processStockWithClose (rampA ++ noneN) [compA, compN] "N" := by
  refine ⟨(variants_agree rampA [compA]).1 (by decide), ?_⟩
  exact (variants_agree (rampA ++ noneN) [compA, compN]).2 "N" (by decide)

/-- Counterexample to claim C9 as stated: the emitted benchmark record
has keys name/data/metrics only — no sector or industry — and its metrics
block has no marketCap, so it does not have the same shape as the
per-symbol records. -/
theorem benchmark_shape_counterexample :
    (processAllStocks rampA [compA]).map (fun o => jkeys (serializeSP o.sp500)) =
      some ["name", "data", "metrics"] ∧
    "sector" ∉ (["name", "data", "metrics"] : List String) ∧
    (processAllStocks rampA [compA]).map
        (fun o => (jfield (serializeSP o.sp500) "metrics").map jkeys) =
      some (some ["totalReturn", "annualizedReturn", "volatility", "years"]) ∧
    "marketCap" ∉ (["totalReturn", "annualizedReturn", "volatility", "years"] : List String) ∧
    (processAllStocks rampA [compA]).bind
        (fun o => (o.stocks.lookup "A").map (fun e => jkeys (serializeStock e))) =
      some ["name", "sector", "industry", "data", "metrics"] := by
  have h : processAllStocks rampA [compA] = some ⟨[("A", entryRampA 250)], spRampA⟩ := by
    decide
  rw [h]
  exact ⟨rfl, by decide, rfl, by decide, rfl⟩

/-- Claim C9, amended: the benchmark record contains name, the two-point
trajectory, and a metrics block with totalReturn, annualizedReturn,
volatility and years — but no sector, no industry and no marketCap,
unlike the per-symbol records, which carry all of those. -/
theorem benchmark_record_shape (rows : List PriceRow) (comps : List Company) (out : Output)
    (_h : processAllStocks rows comps = some out) :
    jkeys (serializeSP out.sp500) = ["name", "data", "metrics"] ∧
    (jfield (serializeSP out.sp500) "metrics").map jkeys =
      some ["totalReturn", "annualizedReturn", "volatility", "years"] ∧
    (serializeSP out.sp500 |> jkeys).length = 3 ∧
    ∀ e : StockEntry,
      jkeys (serializeStock e) = ["name", "sector", "industry", "data", "metrics"] ∧
      (jfield (serializeStock e) "metrics").map jkeys =
        some ["totalReturn", "annualizedReturn", "volatility", "years", "marketCap"] :=
  ⟨rfl, rfl, rfl, fun _ => ⟨rfl, rfl⟩⟩

/-- Witness for the amended claim C9 at a concrete run. -/
theorem benchmark_record_shape_witness :
    jkeys (serializeSP spRampA) = ["name", "data", "metrics"] ∧
    jkeys (serializeStock (entryRampA 250)) =
      ["name", "sector", "industry", "data", "metrics"] := by
  have h := benchmark_record_shape rampA [compA] ⟨[("A", entryRampA 250)], spRampA⟩ (by decide)
  exact ⟨h.1, (h.2.2.2 (entryRampA 250)).1⟩
